import Mathlib

/-!
Shallow embedding of the core scene-timing, caption-layout, history-logging
and scheduling logic of the ytgardening pipeline (files under
.github/scripts), together with proofs about it.

Conventions of the embedding:
- Python floats are modelled as exact rationals.
- Python string truthiness (used in conditions) is modelled as the string
  being nonempty.
- The fixed canvas is 1080 x 1920 with SAFE_ZONE_MARGIN = 130, hence
  TEXT_MAX_WIDTH = 820; the caption height bound is 1920 / 4 = 480.
-/

/-- Characters treated as whitespace by Python str.split with no separator,
restricted to the four common whitespace characters. -/
def pyWhitespace (c : Char) : Bool :=
  c = ' ' || c = '\n' || c = '\t' || c = '\r'

/-- Accumulator pass behind pySplit: walk the characters, collecting the
current word in reverse; whitespace closes the current word if any. -/
def splitWordsAux : List Char → List Char → List String
  | [], acc => if acc.isEmpty then [] else [String.mk acc.reverse]
  | c :: cs, acc =>
    if pyWhitespace c then
      (if acc.isEmpty then splitWordsAux cs []
       else String.mk acc.reverse :: splitWordsAux cs [])
    else splitWordsAux cs (c :: acc)

/-- Python text.split with no separator: split on whitespace runs, dropping
the empty pieces that arise from runs of whitespace or the string ends. -/
def pySplit (s : String) : List String := splitWordsAux s.data []

/-- Accumulator pass behind pySplitLines. -/
def splitLinesAux : List Char → List Char → List String
  | [], acc => [String.mk acc.reverse]
  | c :: cs, acc =>
    if c = '\n' then String.mk acc.reverse :: splitLinesAux cs []
    else splitLinesAux cs (c :: acc)

/-- Python text.split of a newline separator: keeps empty pieces, and the
empty string yields one empty piece. -/
def pySplitLines (s : String) : List String := splitLinesAux s.data []

/-- len(text.split()), the word count used by the duration estimator. -/
def wordCount (s : String) : ℕ := (pySplit s).length

/-- Condition used by the bullet loop of create_video.py, line 760:
not bullet or not bullet.strip() holds exactly when the string is empty or
consists of whitespace only, which is when it has no words. -/
def isBlank (s : String) : Bool := (pySplit s).isEmpty

/-- Word count of " ".join([hook] + bullets + [cta]) (create_video.py lines
485 and 486).  Words contain no whitespace, so splitting the join again
yields the concatenation of the per-section word lists; the count is
embedded directly as the sum of the per-section word counts. -/
def allWords (hook : String) (bullets : List String) (cta : String) : ℕ :=
  wordCount hook + (bullets.map wordCount).sum + wordCount cta

/-- estimate_speech_duration (create_video.py lines 472 to 494).
audioOk models the audio file existing and being readable; totalAudio is
the measured narration duration; totalWords is allWords of the script. -/
def estimate_speech_duration (audioOk : Bool) (totalAudio : ℚ)
    (totalWords : ℕ) (text : String) : ℚ :=
  let words := wordCount text
  if words = 0 then 0
  else if audioOk then
    let tw : ℕ := if totalWords = 0 then 1 else totalWords
    (totalAudio / (tw : ℚ)) * (words : ℚ)
  else ((words : ℚ) / 140) * 60

/-- num_sections of create_video.py lines 503 and 518: sections counted by
Python truthiness of hook and cta, plus every bullet. -/
def numSections (hook : String) (bullets : List String) (cta : String) : ℕ :=
  (if hook ≠ "" then 1 else 0) + bullets.length + (if cta ≠ "" then 1 else 0)

/-- The three per-section estimates of create_video.py lines 496 to 498. -/
def sectionEstimates (audioOk : Bool) (hook : String) (bullets : List String)
    (cta : String) (duration : ℚ) : ℚ × List ℚ × ℚ :=
  let tw := allWords hook bullets cta
  (estimate_speech_duration audioOk duration tw hook,
   bullets.map (estimate_speech_duration audioOk duration tw),
   estimate_speech_duration audioOk duration tw cta)

/-- hook_dur + sum(bullet_durs) + cta_dur for a triple of allocations. -/
def sum3 (t : ℚ × List ℚ × ℚ) : ℚ := t.1 + t.2.1.sum + t.2.2

/-- total_estimated (create_video.py line 500). -/
def totalEstimate (audioOk : Bool) (hook : String) (bullets : List String)
    (cta : String) (duration : ℚ) : ℚ :=
  sum3 (sectionEstimates audioOk hook bullets cta duration)

/-- Multiply every slot of an allocation triple by the time scale
(create_video.py lines 511 to 515). -/
def scaleTriple (ts : ℚ) (t : ℚ × List ℚ × ℚ) : ℚ × List ℚ × ℚ :=
  (t.1 * ts, t.2.1.map (fun d => d * ts), t.2.2 * ts)

/-- The scaled per-section durations of create_video.py lines 511 to 515:
time_scale = duration / total_estimated applied to every estimate. -/
def scaledEstimates (audioOk : Bool) (hook : String) (bullets : List String)
    (cta : String) (duration : ℚ) : ℚ × List ℚ × ℚ :=
  scaleTriple (duration / totalEstimate audioOk hook bullets cta duration)
    (sectionEstimates audioOk hook bullets cta duration)

/-- Cross-fade compensation, create_video.py lines 521 to 536.  Each slot is
shrunk by its proportional share of total_overlap = 0.3 * num_transitions
and floored at 1.0; the hook and cta slots are only touched when truthy. -/
def crossfadeAdjust (hook cta : String) (numTrans : ℕ)
    (t : ℚ × List ℚ × ℚ) : ℚ × List ℚ × ℚ :=
  let overlap : ℚ := (3 / 10) * (numTrans : ℚ)
  let totalBase := sum3 t
  ((if hook ≠ "" ∧ 0 < totalBase then
      max 1 (t.1 - overlap * t.1 / totalBase) else t.1),
   t.2.1.map (fun d =>
      if 0 < totalBase then max 1 (d - overlap * d / totalBase) else d),
   (if cta ≠ "" ∧ 0 < totalBase then
      max 1 (t.2.2 - overlap * t.2.2 / totalBase) else t.2.2))

/-- Final rounding correction, create_video.py lines 538 to 544: if the
absolute residual exceeds 0.01 it is added to cta_dur, with no check that
the cta section is nonempty. -/
def roundingCorrection (duration : ℚ) (t : ℚ × List ℚ × ℚ) :
    ℚ × List ℚ × ℚ :=
  let diff := duration - sum3 t
  if 1 / 100 < |diff| then (t.1, t.2.1, t.2.2 + diff) else t

/-- Equal-split branch for a zero total estimate, create_video.py lines
502 to 508. -/
def equalSplitTriple (hook : String) (bullets : List String) (cta : String)
    (duration : ℚ) : ℚ × List ℚ × ℚ :=
  let n := max 1 (numSections hook bullets cta)
  let eq : ℚ := duration / (n : ℚ)
  ((if hook ≠ "" then eq else 0), bullets.map (fun _ => eq),
   (if cta ≠ "" then eq else 0))

/-- The allocation after time scaling and cross-fade compensation, before
the final rounding correction (the state after create_video.py line 536). -/
def postCrossfade (audioOk : Bool) (hook : String) (bullets : List String)
    (cta : String) (duration : ℚ) : ℚ × List ℚ × ℚ :=
  crossfadeAdjust hook cta (numSections hook bullets cta - 1)
    (scaledEstimates audioOk hook bullets cta duration)

/-- The estimated-duration path of the allocator, create_video.py lines
469 to 544: estimate, equal split on a zero total, otherwise scale,
compensate cross-fades when there is at least one transition
(num_transitions = max(0, num_sections - 1)), then apply the rounding
correction. -/
def allocateEstimated (audioOk : Bool) (hook : String) (bullets : List String)
    (cta : String) (duration : ℚ) : ℚ × List ℚ × ℚ :=
  if totalEstimate audioOk hook bullets cta duration = 0 then
    equalSplitTriple hook bullets cta duration
  else
    roundingCorrection duration
      (if 0 < numSections hook bullets cta - 1 then
        postCrossfade audioOk hook bullets cta duration
      else scaledEstimates audioOk hook bullets cta duration)

/-- The duration allocator, create_video.py lines 450 to 544.  measured is
some triple exactly when hook.mp3, cta.mp3 and every bullet mp3 exist, in
which case their measured durations are used directly (lines 464 to 468);
otherwise the estimated path runs. -/
def allocate (measured : Option (ℚ × List ℚ × ℚ)) (audioOk : Bool)
    (hook : String) (bullets : List String) (cta : String) (duration : ℚ) :
    ℚ × List ℚ × ℚ :=
  match measured with
  | some m => m
  | none => allocateEstimated audioOk hook bullets cta duration

/-- Python list slicing lst[-100:]: keep the last 100 elements. -/
def pyLast100 {α : Type} (l : List α) : List α := l.drop (l.length - 100)

/-- One record of the topic history file
(generate_trending_and_script.py lines 146 to 151). -/
structure HistRecord where
  topic : String
  title : String
  hash : String
  date : String
deriving DecidableEq

/-- One record of the multiplatform upload log
(upload_multiplatform.py lines 443 to 446). -/
structure UploadLogRecord where
  timestamp : String
  results : List String
deriving DecidableEq

/-- save_to_history (generate_trending_and_script.py lines 143 to 159):
append one record, then keep the last 100. -/
def save_to_history (topics : List HistRecord) (r : HistRecord) :
    List HistRecord :=
  pyLast100 (topics ++ [r])

/-- save_results (upload_multiplatform.py lines 432 to 455): append one
record to the log, then keep the last 100. -/
def save_results (log : List UploadLogRecord) (e : UploadLogRecord) :
    List UploadLogRecord :=
  pyLast100 (log ++ [e])

/-- Pixel width of a space-joined candidate line as measured by
draw.textbbox in smart_text_wrap (create_video.py line 596).  The metric of
the loaded font is modelled by a per-word width function wordW and a space
width spaceW; the width of the joined line is the sum of the word widths
plus one space width per gap. -/
def lineWidth (wordW : String → ℚ) (spaceW : ℚ) (l : List String) : ℚ :=
  (l.map wordW).sum + spaceW * ((l.length - 1 : ℕ) : ℚ)

/-- Fit test of the pixel-measured wrap path (create_video.py line 599):
text_width less than or equal to max_width. -/
def pixelFits (wordW : String → ℚ) (spaceW : ℚ) (maxW : ℚ)
    (l : List String) : Bool :=
  decide (lineWidth wordW spaceW l ≤ maxW)

/-- len of the space-joined candidate line, written arithmetically: the sum
of the word lengths plus one per gap (create_video.py lines 574 and 575). -/
def joinLen (l : List String) : ℕ :=
  (l.map String.length).sum + (l.length - 1)

/-- max_chars_per_line = int(max_width / (font_size * 0.55))
(create_video.py lines 564 and 565); int truncation on a nonnegative value
is the floor. -/
def maxCharsPerLine (font_size : ℕ) (maxW : ℚ) : ℤ :=
  ⌊maxW / ((font_size : ℚ) * (11 / 20))⌋

/-- Fit test of the character-count fallback path (create_video.py line
575): len(test_line) less than or equal to max_chars_per_line. -/
def charFits (font_size : ℕ) (maxW : ℚ) (l : List String) : Bool :=
  decide ((joinLen l : ℤ) ≤ maxCharsPerLine font_size maxW)

/-- Greedy word-wrap loop shared by both paths of smart_text_wrap
(create_video.py lines 573 to 583 and 594 to 612): append each word to the
current line while the candidate still fits, otherwise push the current
line (when nonempty) and start a new line with the word.  The pixel path
additionally re-measures an overlong word on its own and does nothing with
the result (lines 606 to 609), which is modelled by nothing. -/
def wrapAux (fits : List String → Bool) :
    List String → List (List String) → List String → List (List String)
  | [], lines, current =>
    lines ++ (if current.isEmpty then [] else [current])
  | w :: ws, lines, current =>
    if fits (current ++ [w]) then wrapAux fits ws lines (current ++ [w])
    else
      wrapAux fits ws
        (lines ++ (if current.isEmpty then [] else [current])) [w]

/-- The wrap loop started on empty state. -/
def wrapCore (fits : List String → Bool) (words : List String) :
    List (List String) :=
  wrapAux fits words [] []

/-- smart_text_wrap (create_video.py lines 558 to 614), returning the list
of output lines; the code returns the lines joined by newlines with one
trailing newline.  fontOk models ImageFont.truetype succeeding; wordW and
spaceW are the metric of the font at the requested size.  When the font
fails to load and the text has at most two words, the original text is
returned unchanged, so its lines are its newline pieces. -/
def smart_text_wrap (fontOk : Bool) (wordW : String → ℚ) (spaceW : ℚ)
    (text : String) (font_size : ℕ) (max_width : ℚ) : List String :=
  if fontOk then
    (wrapCore (pixelFits wordW spaceW max_width) (pySplit text)).map
      (String.intercalate " ")
  else if (pySplit text).length ≤ 2 then pySplitLines text
  else
    (wrapCore (charFits font_size max_width) (pySplit text)).map
      (String.intercalate " ")

/-- total_height of the wrapped block (create_video.py lines 626 to 634):
the per-line heights are summed over wrapped_text.split of the newline,
whose last piece is the empty line left by the trailing newline. -/
def blockHeight (lineH : String → ℚ) (lines : List String) : ℚ :=
  ((lines ++ [""]).map lineH).sum

/-- max_line_width of the wrapped block (create_video.py lines 628 to 635):
a running max starting from 0 over the same lines. -/
def blockMaxWidth (lineW : String → ℚ) (lines : List String) : ℚ :=
  (lines ++ [""]).foldl (fun a l => max a (lineW l)) 0

/-- len(wrapped_text) for the exception branch of create_text_with_effects
(create_video.py line 660): the length of the lines joined by newlines plus
the trailing newline. -/
def wrappedStringLen (lines : List String) : ℕ :=
  (String.intercalate "\n" lines ++ "\n").length

/-- Font-size search loop of create_text_with_effects (create_video.py
lines 640 to 656).  The loop runs while the block overflows either bound,
the font size is still above 32 and fewer than 10 iterations have run; the
remaining iteration budget is the first argument.  Each iteration lowers
the font size by 4 and re-wraps.  lineW and lineH give the per-line metric
at each font size, wordW and spaceW feed the re-wrap. -/
def fitAux (lineW lineH wordW : ℕ → String → ℚ) (spaceW : ℕ → ℚ)
    (text : String) (maxW maxH : ℚ) :
    ℕ → ℕ → List String → List String × ℕ
  | 0, fs, wrapped => (wrapped, fs)
  | fuel + 1, fs, wrapped =>
    if (maxH < blockHeight (lineH fs) wrapped ∨
        maxW < blockMaxWidth (lineW fs) wrapped) ∧ 32 < fs then
      fitAux lineW lineH wordW spaceW text maxW maxH fuel (fs - 4)
        (smart_text_wrap true (wordW (fs - 4)) (spaceW (fs - 4)) text
          (fs - 4) maxW)
    else (wrapped, fs)

/-- create_text_with_effects (create_video.py lines 616 to 663) with the
default start size 64, max_width = TEXT_MAX_WIDTH = 820 and
max_height = 1920 * 0.25 = 480.  When the font cannot be loaded the try
block fails before the loop: the initial wrap is kept, and the font size
drops once by 8, floored at 32, when the wrapped text is longer than 100
characters (lines 658 to 661). -/
def create_text_with_effects (fontOk : Bool)
    (lineW lineH wordW : ℕ → String → ℚ) (spaceW : ℕ → ℚ)
    (text : String) : List String × ℕ :=
  let wrapped := smart_text_wrap fontOk (wordW 64) (spaceW 64) text 64 820
  if fontOk then fitAux lineW lineH wordW spaceW text 820 480 10 64 wrapped
  else
    (wrapped, if 100 < wrappedStringLen wrapped then max 32 (64 - 8) else 64)

/-- Vertical anchor policy of create_scene: the position_y argument is one
of the strings center, top, bottom, or an explicit pixel value. -/
inductive VPos where
  | center : VPos
  | top : VPos
  | bottom : VPos
  | pix : ℤ → VPos
deriving DecidableEq

/-- descender_padding = max(35, int(font_size * 0.6)) (create_video.py line
706); the int truncation of the nonnegative product is the floor. -/
def descenderPadding (fs : ℕ) : ℤ := max 35 ((6 * (fs : ℤ)) / 10)

/-- top_limit = SAFE_ZONE_MARGIN + 80 (create_video.py line 721). -/
def topLimit : ℤ := 130 + 80

/-- bottom_safe_zone = SAFE_ZONE_MARGIN + 180 (create_video.py line 708). -/
def bottomSafeZone : ℤ := 130 + 180

/-- bottom_limit = h - bottom_safe_zone - descender_padding
(create_video.py line 720). -/
def bottomLimit (fs : ℕ) : ℤ := 1920 - bottomSafeZone - descenderPadding fs

/-- Vertical placement and boundary clamping of the caption block
(create_video.py lines 710 to 726): initial placement by anchor policy,
then a clamp against the bottom limit followed by a clamp against the top
limit.  Python floor division is Int.fdiv. -/
def computePosY (fs : ℕ) (textHeight : ℤ) (p : VPos) : ℤ :=
  let base :=
    match p with
    | VPos.center => (1920 - textHeight).fdiv 2
    | VPos.top => 130 + 80
    | VPos.bottom => 1920 - textHeight - bottomSafeZone - descenderPadding fs
    | VPos.pix y =>
      min (max (130 + 80) y)
        (1920 - textHeight - bottomSafeZone - descenderPadding fs)
  let p1 :=
    if bottomLimit fs < base + textHeight then bottomLimit fs - textHeight
    else base
  if p1 < topLimit then topLimit else p1

/-- A positioned, timed visual layer produced by create_scene. -/
inductive Layer where
  | image : String → ℚ → ℚ → Layer
  | color : ℕ × ℕ × ℕ → ℚ → ℚ → Layer
  | text : List String → ℕ → ℚ → ℚ → ℤ → Layer
deriving DecidableEq

/-- Display duration of a layer (second-to-last field throughout). -/
def layerDur : Layer → ℚ
  | Layer.image _ d _ => d
  | Layer.color _ d _ => d
  | Layer.text _ _ d _ _ => d

/-- Start offset of a layer (last timing field throughout). -/
def layerStart : Layer → ℚ
  | Layer.image _ _ s => s
  | Layer.color _ _ s => s
  | Layer.text _ _ _ s _ => s

/-- create_scene (create_video.py lines 665 to 740).  imageOk models
os.path.exists on the image path; textH gives the rendered TextClip height
for the wrapped lines at the chosen font size.  The background is the image
clip when the path is present and exists, otherwise a solid color clip of
the same duration and start; a nonempty text adds a caption layer at the
clamped vertical position. -/
def create_scene (fontOk : Bool) (lineW lineH wordW : ℕ → String → ℚ)
    (spaceW : ℕ → ℚ) (textH : List String → ℕ → ℤ) (imageOk : Bool)
    (imagePath : Option String) (text : String) (dur start : ℚ) (p : VPos)
    (colorFallback : Option (ℕ × ℕ × ℕ)) : List Layer :=
  let fb := colorFallback.getD (45, 80, 22)
  let bg :=
    match imagePath with
    | some ip => if imageOk then Layer.image ip dur start
                 else Layer.color fb dur start
    | none => Layer.color fb dur start
  if text ≠ "" then
    let r := create_text_with_effects fontOk lineW lineH wordW spaceW text
    [bg, Layer.text r.1 r.2 dur start (computePosY r.2 (textH r.1 r.2) p)]
  else [bg]

/-- Path of the gradient fallback image written for scene i
(create_video.py line 415). -/
def fallbackImage (i : ℕ) : String :=
  "scene_fallback_" ++ toString i ++ ".jpg"

/-- Scene-image validation loop (create_video.py lines 409 to 440): every
missing or invalid image is replaced in place by a freshly written gradient
fallback; ok models the validity test of line 413. -/
def validateSceneImages (ok : String → Bool) (imgs : List (Option String)) :
    List String :=
  imgs.enum.map (fun e =>
    match e.2 with
    | some p => if ok p then p else fallbackImage e.1
    | none => fallbackImage e.1)

/-- One entry of the rendered timeline built by the main composition loop
(create_video.py lines 742 to 810). -/
inductive TLEntry where
  | hookScene : ℚ → ℚ → TLEntry
  | bulletScene : ℕ → ℚ → ℚ → TLEntry
  | bulletPlaceholder : ℕ → ℚ → ℚ → TLEntry
  | ctaScene : ℚ → ℚ → TLEntry
deriving DecidableEq

/-- Bullet part of the composition loop (create_video.py lines 756 to 788):
a blank bullet becomes a solid-color placeholder and still advances
current_time by its allocated duration; any other bullet becomes a scene.
The arguments are the bullets zipped with their durations, the running
start time, and the index of the first bullet. -/
def tlBullets : List (String × ℚ) → ℚ → ℕ → List TLEntry
  | [], _, _ => []
  | (b, d) :: rest, t, i =>
    (if isBlank b then TLEntry.bulletPlaceholder i t d
     else TLEntry.bulletScene i t d) :: tlBullets rest (t + d) (i + 1)

/-- The rendered timeline (create_video.py lines 742 to 810): the hook
scene when the hook is truthy, then the bullets, then the cta scene when
the cta is truthy, each advancing current_time by its duration. -/
def buildTimeline (hook : String) (bullets : List String) (cta : String)
    (t : ℚ × List ℚ × ℚ) : List TLEntry :=
  let hookPart := if hook ≠ "" then [TLEntry.hookScene 0 t.1] else []
  let t1 : ℚ := if hook ≠ "" then t.1 else 0
  let bulletPart := tlBullets (bullets.zip t.2.1) t1 0
  let t2 := t1 + ((bullets.zip t.2.1).map Prod.snd).sum
  let ctaPart := if cta ≠ "" then [TLEntry.ctaScene t2 t.2.2] else []
  hookPart ++ bulletPart ++ ctaPart

/-- One slot of the posting schedule table
(optimal_scheduler.py lines 18 to 49). -/
structure SchedSlot where
  time : String
  priority : String
  contentType : String
deriving DecidableEq

/-- OPTIMAL_SCHEDULE (optimal_scheduler.py lines 18 to 49), keyed by
weekday; lookups elsewhere in the script use .get with an empty default. -/
def OPTIMAL_SCHEDULE : ℕ → List SchedSlot
  | 0 => [⟨"18:00", "medium", "weekly_planning"⟩,
          ⟨"20:00", "low", "inspiration"⟩]
  | 1 => [⟨"12:00", "medium", "quick_tips"⟩,
          ⟨"18:30", "medium", "problem_solving"⟩]
  | 2 => [⟨"16:00", "high", "propagation"⟩,
          ⟨"19:00", "high", "trending_hack"⟩]
  | 3 => [⟨"17:00", "high", "weekend_prep"⟩,
          ⟨"19:30", "medium", "seasonal_tips"⟩]
  | 4 => [⟨"17:00", "medium", "weekend_projects"⟩,
          ⟨"19:00", "medium", "inspiration"⟩]
  | 5 => [⟨"09:00", "highest", "morning_routine"⟩,
          ⟨"14:00", "highest", "weekend_project"⟩,
          ⟨"18:00", "high", "harvest_showcase"⟩]
  | 6 => [⟨"10:00", "highest", "sunday_garden"⟩,
          ⟨"15:00", "high", "weekly_planning"⟩,
          ⟨"19:00", "medium", "relaxation"⟩]
  | _ => []

/-- The literal assigned to ignore_schedule at optimal_scheduler.py line
105: a verbatim GitHub Actions expression that was never substituted, so
the equality test against the string true is a fixed string comparison. -/
def ignoreScheduleInput : String :=
  "$\x7b\x7b github.event.inputs.ignore_schedule \x7d\x7d"

/-- Module-level schedule check of optimal_scheduler.py lines 105 to 121.
When ignore_schedule is false, the elif at line 111 evaluates
the expression weekday in optimal_times, and the name optimal_times is
bound nowhere in the script (the table is named OPTIMAL_SCHEDULE), so the
check raises NameError for every weekday and hour; the parameters are kept
to reflect the inputs the check is supposed to consume. -/
def moduleScheduleCheck (_weekday _hour : ℕ) : Except String (Bool × String) :=
  if ignoreScheduleInput = "true" then Except.ok (true, "manual")
  else Except.error "NameError: name optimal_times is not defined"

lemma sum_map_const {α : Type} (l : List α) (c : ℚ) :
    (l.map (fun _ => c)).sum = (l.length : ℚ) * c := by
  induction l with
  | nil => simp
  | cons a t ih => simp [ih]; ring

lemma sum_map_mul (l : List ℚ) (c : ℚ) :
    (l.map (fun d => d * c)).sum = l.sum * c := by
  induction l with
  | nil => simp
  | cons a t ih => simp [ih]; ring

lemma sum3_roundingCorrection (d : ℚ) (t : ℚ × List ℚ × ℚ) :
    |sum3 (roundingCorrection d t) - d| ≤ 1 / 100 := by
  simp only [roundingCorrection]
  split_ifs with h
  · have e : sum3 (t.1, t.2.1, t.2.2 + (d - sum3 t)) - d = 0 := by
      simp [sum3]; ring
    rw [e]
    norm_num
  · rw [abs_sub_comm]
    linarith [not_lt.mp h]

lemma sum3_equalSplitTriple (hook : String) (bullets : List String)
    (cta : String) (duration : ℚ)
    (hn : 1 ≤ numSections hook bullets cta) :
    sum3 (equalSplitTriple hook bullets cta duration) = duration := by
  have hmax : max 1 (numSections hook bullets cta) =
      numSections hook bullets cta := Nat.max_eq_right hn
  simp only [equalSplitTriple, hmax, sum3]
  rw [sum_map_const]
  have hne : ((numSections hook bullets cta : ℕ) : ℚ) ≠ 0 :=
    Nat.cast_ne_zero.mpr (by omega)
  split_ifs with hh hc hc
  · rw [show numSections hook bullets cta = bullets.length + 2 by
      simp [numSections, hh, hc]; try omega] at hne ⊢
    push_cast at hne ⊢
    field_simp
    ring
  · rw [show numSections hook bullets cta = bullets.length + 1 by
      simp [numSections, hh, hc]; try omega] at hne ⊢
    push_cast at hne ⊢
    field_simp
    ring
  · rw [show numSections hook bullets cta = bullets.length + 1 by
      simp [numSections, hh, hc]; try omega] at hne ⊢
    push_cast at hne ⊢
    field_simp
    ring
  · rw [show numSections hook bullets cta = bullets.length by
      simp [numSections, hh, hc]; try omega] at hne ⊢
    field_simp

/-- C1: for every valid input (positive total duration and a script with at
least one bullet), the three allocator outputs hook_dur, bullet_durs and
cta_dur sum to the true total audio duration within 0.02 seconds, in the
estimated path (time scaling, cross-fade compensation and the rounding
correction that absorbs the residual into the cta slot) and, assuming the
per-section files together carry the narration, in the measured path. -/
theorem c1_allocator_sum_tolerance (audioOk : Bool) (hook : String)
    (bullets : List String) (cta : String) (duration : ℚ)
    (m : ℚ × List ℚ × ℚ) (_hdur : 0 < duration) (hb : bullets ≠ [])
    (hm : sum3 m = duration) :
    |sum3 (allocate none audioOk hook bullets cta duration) - duration|
        ≤ 1 / 50 ∧
    |sum3 (allocate (some m) audioOk hook bullets cta duration) - duration|
        ≤ 1 / 50 := by
  constructor
  · show |sum3 (allocateEstimated audioOk hook bullets cta duration) -
        duration| ≤ 1 / 50
    unfold allocateEstimated
    split_ifs with h0 ht
    · have hn : 1 ≤ numSections hook bullets cta := by
        have : 0 < bullets.length := List.length_pos.mpr hb
        unfold numSections
        split_ifs <;> omega
      rw [sum3_equalSplitTriple hook bullets cta duration hn]
      norm_num
    · have := sum3_roundingCorrection duration
        (postCrossfade audioOk hook bullets cta duration)
      linarith
    · have := sum3_roundingCorrection duration
        (scaledEstimates audioOk hook bullets cta duration)
      linarith
  · show |sum3 m - duration| ≤ 1 / 50
    rw [hm]
    norm_num

/-- C1 witness: a concrete valid input on which the hypotheses hold. -/
theorem c1_allocator_sum_tolerance_witness :
    (0 : ℚ) < 10 ∧ (["b"] : List String) ≠ [] ∧
    sum3 ((3 : ℚ), ([4] : List ℚ), (3 : ℚ)) = 10 ∧
    (|sum3 (allocate none true "a" ["b"] "c" 10) - 10| ≤ 1 / 50 ∧
     |sum3 (allocate (some (3, [4], 3)) true "a" ["b"] "c" 10) - 10|
        ≤ 1 / 50) :=
  ⟨by norm_num, by simp, by norm_num [sum3],
   c1_allocator_sum_tolerance true "a" ["b"] "c" 10 (3, [4], 3)
     (by norm_num) (by simp) (by norm_num [sum3])⟩

/-- C7: when a measured duration exists for every section, the allocator
returns exactly the measured hook, bullet and cta durations, applying no
estimation, scaling, cross-fade compensation or rounding correction; in
particular, when the per-section durations carry the whole narration, the
timeline total equals the narration total exactly. -/
theorem c7_measured_direct (m : ℚ × List ℚ × ℚ) (audioOk : Bool)
    (hook : String) (bullets : List String) (cta : String) (duration : ℚ)
    (hm : sum3 m = duration) :
    allocate (some m) audioOk hook bullets cta duration = m ∧
    sum3 (allocate (some m) audioOk hook bullets cta duration) = duration :=
  ⟨rfl, hm⟩

/-- C7 witness at a concrete measured triple. -/
theorem c7_measured_direct_witness :
    sum3 ((2 : ℚ), ([3, 4] : List ℚ), (1 : ℚ)) = 10 ∧
    (allocate (some (2, [3, 4], 1)) false "h" ["x", "y"] "c" 10
        = (2, [3, 4], 1) ∧
     sum3 (allocate (some (2, [3, 4], 1)) false "h" ["x", "y"] "c" 10)
        = 10) :=
  ⟨by norm_num [sum3],
   c7_measured_direct (2, [3, 4], 1) false "h" ["x", "y"] "c" 10
     (by norm_num [sum3])⟩

/-- C8: in the estimated path each section duration is its word count times
the corpus rate total duration / total words whenever that rate exists
(audio readable and a positive corpus word count); when the corpus rate
cannot be computed, either because the narration audio is unreadable or
because the corpus has no words at all, the estimate agrees with the fixed
140 words-per-minute fallback. -/
theorem c8_estimate_rate_fallback (audioOk : Bool) (duration : ℚ)
    (hook : String) (bullets : List String) (cta : String) (text : String)
    (hmem : wordCount text ≤ allWords hook bullets cta) :
    (audioOk = true → 0 < allWords hook bullets cta →
      estimate_speech_duration audioOk duration
          (allWords hook bullets cta) text =
        (duration / (allWords hook bullets cta : ℚ)) *
          (wordCount text : ℚ)) ∧
    (audioOk = true → allWords hook bullets cta = 0 →
      estimate_speech_duration audioOk duration
          (allWords hook bullets cta) text =
        ((wordCount text : ℚ) / 140) * 60) ∧
    (audioOk = false →
      estimate_speech_duration audioOk duration
          (allWords hook bullets cta) text =
        ((wordCount text : ℚ) / 140) * 60) := by
  refine ⟨?_, ?_, ?_⟩
  · intro ha htw
    simp only [estimate_speech_duration, ha, if_true]
    by_cases hw : wordCount text = 0
    · simp [hw]
    · rw [if_neg hw, if_neg (by omega : ¬allWords hook bullets cta = 0)]
  · intro ha htw
    have hw : wordCount text = 0 := by omega
    simp [estimate_speech_duration, hw]
  · intro ha
    subst ha
    simp only [estimate_speech_duration, Bool.false_eq_true, if_false]
    by_cases hw : wordCount text = 0
    · simp [hw]
    · rw [if_neg hw]

/-- C8 witness: a concrete section of a concrete script. -/
theorem c8_estimate_rate_fallback_witness :
    wordCount "b c" ≤ allWords "a" ["b c"] "" ∧
    ((true = true → 0 < allWords "a" ["b c"] "" →
      estimate_speech_duration true 9 (allWords "a" ["b c"] "") "b c" =
        (9 / (allWords "a" ["b c"] "" : ℚ)) * (wordCount "b c" : ℚ)) ∧
     (true = true → allWords "a" ["b c"] "" = 0 →
      estimate_speech_duration true 9 (allWords "a" ["b c"] "") "b c" =
        ((wordCount "b c" : ℚ) / 140) * 60) ∧
     (true = false →
      estimate_speech_duration true 9 (allWords "a" ["b c"] "") "b c" =
        ((wordCount "b c" : ℚ) / 140) * 60)) :=
  ⟨by decide, c8_estimate_rate_fallback true 9 "a" ["b c"] "" "b c" (by decide)⟩

lemma pyLast100_length {α : Type} (l : List α) :
    (pyLast100 l).length = min l.length 100 := by
  simp only [pyLast100, List.length_drop]
  omega

lemma pyLast100_getLast_concat {α : Type} (l : List α) (a : α) :
    (pyLast100 (l ++ [a])).getLast? = some a := by
  unfold pyLast100
  by_cases h : (l ++ [a]).length ≤ 100
  · rw [show (l ++ [a]).length - 100 = 0 by omega, List.drop_zero,
      List.getLast?_concat]
  · have hle : (l ++ [a]).length - 100 ≤ l.length := by
      simp only [List.length_append, List.length_singleton]
      omega
    rw [List.drop_append_of_le_length hle, List.getLast?_concat]

/-- C9: each history save appends exactly one record, the newest stored
record is the appended one, the stored list is a suffix of the old list
plus the new record (older records are only dropped from the front), and
its length never exceeds the retention cap of 100; this holds for both the
topic history of the script generator and the multiplatform upload log. -/
theorem c9_history_append_cap (topics : List HistRecord) (r : HistRecord)
    (log : List UploadLogRecord) (e : UploadLogRecord) :
    ((save_to_history topics r).length = min (topics.length + 1) 100 ∧
      (save_to_history topics r).getLast? = some r ∧
      save_to_history topics r <:+ topics ++ [r] ∧
      (save_to_history topics r).length ≤ 100) ∧
    ((save_results log e).length = min (log.length + 1) 100 ∧
      (save_results log e).getLast? = some e ∧
      save_results log e <:+ log ++ [e] ∧
      (save_results log e).length ≤ 100) := by
  have h1 := pyLast100_length (topics ++ [r])
  have h2 := pyLast100_length (log ++ [e])
  simp only [List.length_append, List.length_singleton] at h1 h2
  refine ⟨⟨?_, ?_, ?_, ?_⟩, ⟨?_, ?_, ?_, ?_⟩⟩
  · exact h1
  · exact pyLast100_getLast_concat topics r
  · exact List.drop_suffix _ _
  · simp only [save_to_history]
    omega
  · exact h2
  · exact pyLast100_getLast_concat log e
  · exact List.drop_suffix _ _
  · simp only [save_results]
    omega

/-- C10: the module-level schedule check of the scheduling advisor never
produces a recommendation: for every weekday and hour it evaluates the
undefined name optimal_times and fails with a NameError (the lookup table
actually defined is OPTIMAL_SCHEDULE). -/
theorem c10_scheduler_namerror (weekday hour : ℕ) :
    moduleScheduleCheck weekday hour =
      Except.error "NameError: name optimal_times is not defined" := by
  unfold moduleScheduleCheck
  rw [if_neg (by decide)]

lemma estimate_speech_duration_empty (audioOk : Bool) (d : ℚ) (tw : ℕ) :
    estimate_speech_duration audioOk d tw "" = 0 := by
  have h : wordCount "" = 0 := by decide
  simp [estimate_speech_duration, h]

lemma sum3_scaledEstimates (audioOk : Bool) (hook : String)
    (bullets : List String) (cta : String) (duration : ℚ)
    (hE : totalEstimate audioOk hook bullets cta duration ≠ 0) :
    sum3 (scaledEstimates audioOk hook bullets cta duration) = duration := by
  have h : sum3 (scaledEstimates audioOk hook bullets cta duration) =
      totalEstimate audioOk hook bullets cta duration *
        (duration / totalEstimate audioOk hook bullets cta duration) := by
    simp only [scaledEstimates, scaleTriple, sum3, totalEstimate,
      sectionEstimates]
    rw [sum_map_mul]
    ring
  rw [h]
  field_simp

lemma tlBullets_length (l : List (String × ℚ)) (t : ℚ) (i : ℕ) :
    (tlBullets l t i).length = l.length := by
  induction l generalizing t i with
  | nil => simp [tlBullets]
  | cons hd tl ih =>
    obtain ⟨b, d⟩ := hd
    simp [tlBullets, ih]

lemma tlBullets_getElem (l : List (String × ℚ)) (t : ℚ) (i k : ℕ)
    (b : String) (d : ℚ) (h : l[k]? = some (b, d)) :
    (tlBullets l t i)[k]? = some
      (if isBlank b then
        TLEntry.bulletPlaceholder (i + k)
          (t + ((l.map Prod.snd).take k).sum) d
      else
        TLEntry.bulletScene (i + k)
          (t + ((l.map Prod.snd).take k).sum) d) := by
  induction l generalizing t i k with
  | nil => simp at h
  | cons hd tl ih =>
    obtain ⟨b0, d0⟩ := hd
    cases k with
    | zero =>
      simp only [List.getElem?_cons_zero, Option.some_inj] at h
      obtain ⟨hb, hd'⟩ := Prod.mk.injEq .. ▸ h
      subst hb
      subst hd'
      simp [tlBullets]
    | succ k =>
      simp only [List.getElem?_cons_succ] at h
      have e1 : i + 1 + k = i + (k + 1) := by omega
      have e2 : t + d0 + ((tl.map Prod.snd).take k).sum =
          t + ((((b0, d0) :: tl).map Prod.snd).take (k + 1)).sum := by
        simp
        ring
      rw [show tlBullets ((b0, d0) :: tl) t i =
        (if isBlank b0 then TLEntry.bulletPlaceholder i t d0
         else TLEntry.bulletScene i t d0) :: tlBullets tl (t + d0) (i + 1)
        from rfl]
      rw [List.getElem?_cons_succ, ih (t + d0) (i + 1) k h, e1, e2]

lemma tlBullets_entries (l : List (String × ℚ)) (t : ℚ) (i : ℕ) :
    ∀ e ∈ tlBullets l t i,
      (∀ s d, e ≠ TLEntry.hookScene s d) ∧
      (∀ s d, e ≠ TLEntry.ctaScene s d) := by
  induction l generalizing t i with
  | nil => simp [tlBullets]
  | cons hd tl ih =>
    obtain ⟨b, d⟩ := hd
    intro e he
    simp only [tlBullets, List.mem_cons] at he
    rcases he with he | he
    · subst he
      constructor <;> intro s dd hcontra <;> split_ifs at hcontra
    · exact ih _ _ e he

/-- C2 counterexample: with hook a, one bullet b and an empty cta over a
10 second narration, the estimated path assigns the empty cta section the
allocated duration 0.3 rather than exactly 0, because the final rounding
correction adds the cross-fade residual to the cta slot without checking
that the cta is nonempty. -/
theorem c2_empty_section_counterexample :
    (allocateEstimated true "a" ["b"] "" 10).2.2 = 3 / 10 ∧
    ((3 : ℚ) / 10) ≠ 0 := by
  constructor
  · have hwa : wordCount "a" = 1 := by decide
    have hwb : wordCount "b" = 1 := by decide
    have hwe : wordCount "" = 0 := by decide
    have hsa : ("a" : String) ≠ "" := by decide
    have hest : sectionEstimates true "a" ["b"] "" 10 = (5, [5], 0) := by
      simp [sectionEstimates, estimate_speech_duration, allWords, hwa, hwb,
        hwe]
      norm_num
    have htot : totalEstimate true "a" ["b"] "" 10 = 10 := by
      rw [totalEstimate, hest]
      norm_num [sum3]
    have hscaled : scaledEstimates true "a" ["b"] "" 10 = (5, [5], 0) := by
      rw [scaledEstimates, htot, hest]
      norm_num [scaleTriple]
    have hns : numSections "a" ["b"] "" = 2 := by
      simp [numSections, hsa]
    have hpc : postCrossfade true "a" ["b"] "" 10 = (97 / 20, [97 / 20], 0) := by
      rw [postCrossfade, hscaled, hns]
      simp only [crossfadeAdjust, sum3]
      norm_num [hsa, max_eq_right]
    rw [allocateEstimated, if_neg (by rw [htot]; norm_num), hns]
    simp only [hpc, roundingCorrection, sum3]
    norm_num
    rw [abs_of_nonneg (by norm_num : (0 : ℚ) ≤ 3 / 10)]
    norm_num
  · norm_num

/-- C2 (amended): in the estimated scaled path with at least one
transition, once cross-fade compensation has been applied every section
duration is at least 1.0, including blank bullets, except an empty hook or
empty cta, whose compensated duration is exactly 0; the rounding
correction that follows changes only the cta slot, so an empty cta can end
with a nonzero allocated value, but empty hook and cta sections are still
excluded from the rendered timeline, while a blank bullet is rendered as a
placeholder that consumes its allocated duration at its cumulative start
offset, so later bullets do not shift. -/
theorem c2_section_floors_amended (audioOk : Bool) (hook : String)
    (bullets : List String) (cta : String) (duration : ℚ)
    (hdur : 0 < duration)
    (hE : totalEstimate audioOk hook bullets cta duration ≠ 0)
    (hns : 2 ≤ numSections hook bullets cta) :
    ((hook ≠ "" → 1 ≤ (postCrossfade audioOk hook bullets cta duration).1) ∧
     (hook = "" → (postCrossfade audioOk hook bullets cta duration).1 = 0) ∧
     (∀ d ∈ (postCrossfade audioOk hook bullets cta duration).2.1, 1 ≤ d) ∧
     (cta ≠ "" →
       1 ≤ (postCrossfade audioOk hook bullets cta duration).2.2) ∧
     (cta = "" →
       (postCrossfade audioOk hook bullets cta duration).2.2 = 0)) ∧
    ((allocateEstimated audioOk hook bullets cta duration).1 =
        (postCrossfade audioOk hook bullets cta duration).1 ∧
     (allocateEstimated audioOk hook bullets cta duration).2.1 =
        (postCrossfade audioOk hook bullets cta duration).2.1) ∧
    (∀ t : ℚ × List ℚ × ℚ,
      (hook = "" → ∀ e ∈ buildTimeline hook bullets cta t,
        ∀ s d, e ≠ TLEntry.hookScene s d) ∧
      (cta = "" → ∀ e ∈ buildTimeline hook bullets cta t,
        ∀ s d, e ≠ TLEntry.ctaScene s d)) ∧
    (∀ (t : ℚ × List ℚ × ℚ) (k : ℕ) (b : String) (d : ℚ),
      (bullets.zip t.2.1)[k]? = some (b, d) →
      (tlBullets (bullets.zip t.2.1) (if hook ≠ "" then t.1 else 0) 0)[k]? =
        some (if isBlank b then
          TLEntry.bulletPlaceholder k
            ((if hook ≠ "" then t.1 else 0) +
              (((bullets.zip t.2.1).map Prod.snd).take k).sum) d
        else
          TLEntry.bulletScene k
            ((if hook ≠ "" then t.1 else 0) +
              (((bullets.zip t.2.1).map Prod.snd).take k).sum) d)) ∧
    (∀ t : ℚ × List ℚ × ℚ,
      buildTimeline hook bullets cta t =
        (if hook ≠ "" then [TLEntry.hookScene 0 t.1] else []) ++
        tlBullets (bullets.zip t.2.1) (if hook ≠ "" then t.1 else 0) 0 ++
        (if cta ≠ "" then
          [TLEntry.ctaScene
            ((if hook ≠ "" then t.1 else 0) +
              ((bullets.zip t.2.1).map Prod.snd).sum) t.2.2]
        else [])) := by
  have hbase : sum3 (scaledEstimates audioOk hook bullets cta duration) =
      duration := sum3_scaledEstimates audioOk hook bullets cta duration hE
  have hpos : 0 < sum3 (scaledEstimates audioOk hook bullets cta duration) := by
    rw [hbase]
    exact hdur
  have halloc : allocateEstimated audioOk hook bullets cta duration =
      roundingCorrection duration
        (postCrossfade audioOk hook bullets cta duration) := by
    rw [allocateEstimated, if_neg hE,
      if_pos (by omega : 0 < numSections hook bullets cta - 1)]
  refine ⟨⟨?_, ?_, ?_, ?_, ?_⟩, ?_, ?_, ?_, ?_⟩
  · intro hh
    simp only [postCrossfade, crossfadeAdjust]
    rw [if_pos ⟨hh, hpos⟩]
    exact le_max_left _ _
  · intro hh
    simp only [postCrossfade, crossfadeAdjust]
    rw [if_neg (by simp [hh])]
    subst hh
    simp [scaledEstimates, scaleTriple, sectionEstimates,
      estimate_speech_duration_empty]
  · intro d hd
    simp only [postCrossfade, crossfadeAdjust] at hd
    obtain ⟨d0, hd0, rfl⟩ := List.mem_map.mp hd
    rw [if_pos hpos]
    exact le_max_left _ _
  · intro hc
    simp only [postCrossfade, crossfadeAdjust]
    rw [if_pos ⟨hc, hpos⟩]
    exact le_max_left _ _
  · intro hc
    simp only [postCrossfade, crossfadeAdjust]
    rw [if_neg (by simp [hc])]
    subst hc
    simp [scaledEstimates, scaleTriple, sectionEstimates,
      estimate_speech_duration_empty]
  · rw [halloc]
    constructor <;> (simp only [roundingCorrection]; split_ifs <;> rfl)
  · intro t
    have hdec : buildTimeline hook bullets cta t =
        ((if hook ≠ "" then [TLEntry.hookScene 0 t.1] else []) ++
          tlBullets (bullets.zip t.2.1) (if hook ≠ "" then t.1 else 0) 0) ++
        (if cta ≠ "" then
          [TLEntry.ctaScene
            ((if hook ≠ "" then t.1 else 0) +
              ((bullets.zip t.2.1).map Prod.snd).sum) t.2.2]
        else []) := rfl
    constructor
    · intro hh e he s d
      rw [hdec, if_neg (show ¬(hook ≠ "") by simp [hh]),
        List.nil_append] at he
      rcases List.mem_append.mp he with he | he
      · exact (tlBullets_entries _ _ _ e he).1 s d
      · by_cases hc2 : cta ≠ ""
        · rw [if_pos hc2] at he
          simp only [List.mem_singleton] at he
          subst he
          exact fun hcon => TLEntry.noConfusion hcon
        · rw [if_neg hc2] at he
          simp at he
    · intro hc e he s d
      rw [hdec, if_neg (show ¬(cta ≠ "") by simp [hc]),
        List.append_nil] at he
      rcases List.mem_append.mp he with he | he
      · by_cases hh2 : hook ≠ ""
        · rw [if_pos hh2] at he
          simp only [List.mem_singleton] at he
          subst he
          exact fun hcon => TLEntry.noConfusion hcon
        · rw [if_neg hh2] at he
          simp at he
      · exact (tlBullets_entries _ _ _ e he).2 s d
  · intro t k b d h
    simpa using tlBullets_getElem (bullets.zip t.2.1)
      (if hook ≠ "" then t.1 else 0) 0 k b d h
  · intro t
    rfl

/-- C2 witness: a concrete three-section script on which the amended
hypotheses hold and the compensated floors follow. -/
theorem c2_section_floors_amended_witness :
    (0 : ℚ) < 12 ∧ totalEstimate true "a" ["b"] "c" 12 ≠ 0 ∧
    2 ≤ numSections "a" ["b"] "c" ∧
    1 ≤ (postCrossfade true "a" ["b"] "c" 12).1 ∧
    (∀ d ∈ (postCrossfade true "a" ["b"] "c" 12).2.1, 1 ≤ d) ∧
    1 ≤ (postCrossfade true "a" ["b"] "c" 12).2.2 := by
  have hwa : wordCount "a" = 1 := by decide
  have hwb : wordCount "b" = 1 := by decide
  have hwc : wordCount "c" = 1 := by decide
  have htot : totalEstimate true "a" ["b"] "c" 12 = 12 := by
    simp [totalEstimate, sectionEstimates, estimate_speech_duration,
      allWords, sum3, hwa, hwb, hwc]
    norm_num
  have hE : totalEstimate true "a" ["b"] "c" 12 ≠ 0 := by
    rw [htot]
    norm_num
  refine ⟨by norm_num, hE, by decide, ?_, ?_, ?_⟩
  · exact (c2_section_floors_amended true "a" ["b"] "c" 12 (by norm_num) hE
      (by decide)).1.1 (by decide)
  · exact (c2_section_floors_amended true "a" ["b"] "c" 12 (by norm_num) hE
      (by decide)).1.2.2.1
  · exact (c2_section_floors_amended true "a" ["b"] "c" 12 (by norm_num) hE
      (by decide)).1.2.2.2.1 (by decide)

lemma wrapAux_flatten (fits : List String → Bool) (ws : List String) :
    ∀ (lines : List (List String)) (current : List String),
      (wrapAux fits ws lines current).flatten =
        lines.flatten ++ current ++ ws := by
  induction ws with
  | nil =>
    intro lines current
    by_cases hc : current.isEmpty
    · rw [List.isEmpty_iff] at hc
      subst hc
      simp [wrapAux]
    · simp [wrapAux, hc]
  | cons w ws ih =>
    intro lines current
    simp only [wrapAux]
    split_ifs with hf hc
    · rw [ih]
      simp
    · rw [ih]
      rw [List.isEmpty_iff] at hc
      subst hc
      simp
    · rw [ih]
      simp

lemma wrapCore_flatten (fits : List String → Bool) (words : List String) :
    (wrapCore fits words).flatten = words := by
  simpa using wrapAux_flatten fits words [] []

lemma wrapAux_mem (fits : List String → Bool) (ws : List String) :
    ∀ (lines : List (List String)) (current : List String),
      (∀ l ∈ lines, l.length = 1 ∨ fits l = true) →
      (current = [] ∨ current.length = 1 ∨ fits current = true) →
      ∀ l ∈ wrapAux fits ws lines current,
        l.length = 1 ∨ fits l = true := by
  induction ws with
  | nil =>
    intro lines current hlines hcur l hl
    simp only [wrapAux] at hl
    split_ifs at hl with hc
    · exact hlines l (by simpa using hl)
    · rcases List.mem_append.mp hl with h | h
      · exact hlines l h
      · simp only [List.mem_singleton] at h
        subst h
        rcases hcur with h0 | h1
        · rw [List.isEmpty_iff] at hc
          exact absurd h0 hc
        · exact h1
  | cons w ws ih =>
    intro lines current hlines hcur l hl
    simp only [wrapAux] at hl
    split_ifs at hl with hf hc
    · exact ih lines (current ++ [w]) hlines (Or.inr (Or.inr hf)) l hl
    · refine ih (lines ++ []) [w] ?_ (Or.inr (Or.inl rfl)) l hl
      simpa using hlines
    · refine ih (lines ++ [current]) [w] ?_ (Or.inr (Or.inl rfl)) l hl
      intro l2 hl2
      rcases List.mem_append.mp hl2 with h | h
      · exact hlines l2 h
      · simp only [List.mem_singleton] at h
        subst h
        rcases hcur with h0 | h1
        · rw [List.isEmpty_iff] at hc
          exact absurd h0 hc
        · exact h1

lemma wrapCore_mem (fits : List String → Bool) (words : List String) :
    ∀ l ∈ wrapCore fits words, l.length = 1 ∨ fits l = true := by
  intro l hl
  exact wrapAux_mem fits words [] [] (by simp) (Or.inl rfl) l hl

lemma wrapCore_overflow_alone (fits : List String → Bool)
    (words : List String) (w : String)
    (hmono : ∀ l, w ∈ l → fits l = true → fits [w] = true)
    (hw : fits [w] = false) :
    ∀ l ∈ wrapCore fits words, w ∈ l → l = [w] := by
  intro l hl hwl
  rcases wrapCore_mem fits words l hl with h1 | h2
  · obtain ⟨a, rfl⟩ := List.length_eq_one.mp h1
    simp only [List.mem_singleton] at hwl
    rw [hwl]
  · have := hmono l hwl h2
    rw [hw] at this
    exact absurd this (by simp)

lemma pixelFits_mono (wordW : String → ℚ) (spaceW maxW : ℚ)
    (hW : ∀ s, 0 ≤ wordW s) (hsp : 0 ≤ spaceW) (w : String) :
    ∀ l, w ∈ l → pixelFits wordW spaceW maxW l = true →
      pixelFits wordW spaceW maxW [w] = true := by
  intro l hm hf
  simp only [pixelFits, decide_eq_true_eq] at hf ⊢
  have h1 : lineWidth wordW spaceW [w] = wordW w := by
    simp [lineWidth]
  have hmem : wordW w ∈ l.map wordW := List.mem_map_of_mem _ hm
  have h2 : wordW w ≤ (l.map wordW).sum := by
    refine List.single_le_sum ?_ _ hmem
    intro x hx
    obtain ⟨s, _, rfl⟩ := List.mem_map.mp hx
    exact hW s
  have hsp2 : 0 ≤ spaceW * ((l.length - 1 : ℕ) : ℚ) := by positivity
  simp only [lineWidth] at hf
  rw [h1]
  linarith

lemma charFits_mono (fs : ℕ) (maxW : ℚ) (w : String) :
    ∀ l, w ∈ l → charFits fs maxW l = true → charFits fs maxW [w] = true := by
  intro l hm hf
  simp only [charFits, decide_eq_true_eq] at hf ⊢
  have h1 : joinLen [w] = w.length := by
    simp [joinLen]
  have hmem : w.length ∈ l.map String.length := List.mem_map_of_mem _ hm
  have h2 : w.length ≤ (l.map String.length).sum :=
    List.single_le_sum (fun x _ => Nat.zero_le x) _ hmem
  have h3 : (l.map String.length).sum ≤ joinLen l := by
    simp only [joinLen]
    omega
  rw [h1]
  omega

/-- C3 counterexample: in the character-count fallback path with a
two-word text whose first word has 30 characters while the line budget at
size 64 and width 820 is 23 characters, smart_text_wrap returns the whole
text as a single line, so the overflowing word is not placed alone on its
own line. -/
theorem c3_wide_word_counterexample :
    smart_text_wrap false (fun _ => 0) 0
        "aaaaaaaaaaaaaaaaaaaaaaaaaaaaaa b" 64 820 =
      ["aaaaaaaaaaaaaaaaaaaaaaaaaaaaaa b"] ∧
    charFits 64 820 ["aaaaaaaaaaaaaaaaaaaaaaaaaaaaaa"] = false := by
  constructor
  · have h2 : (pySplit "aaaaaaaaaaaaaaaaaaaaaaaaaaaaaa b").length ≤ 2 := by
      decide
    rw [smart_text_wrap, if_neg (by simp), if_pos h2]
    decide
  · have hfl : maxCharsPerLine 64 820 = 23 := by
      simp only [maxCharsPerLine]
      norm_num [Int.floor_eq_iff]
    simp only [charFits, hfl]
    decide

/-- C3 (amended): smart_text_wrap never splits a word.  In both the
pixel-measured path and the character-count path, concatenating the word
lists of the output lines gives back exactly the input words, each output
line being the space-join of a consecutive block of whole input words; a
word wider than the maximum width is placed alone on its own line in the
pixel path, and in the character path whenever the text has more than two
words (with at most two words the fallback returns the whole text as one
line, which is the behavior the counterexample exhibits). -/
theorem c3_word_integrity_amended (wordW : String → ℚ) (spaceW maxW : ℚ)
    (fs : ℕ) (text : String) (w : String)
    (hW : ∀ s, 0 ≤ wordW s) (hsp : 0 ≤ spaceW) :
    ((wrapCore (pixelFits wordW spaceW maxW) (pySplit text)).flatten =
      pySplit text) ∧
    ((wrapCore (charFits fs maxW) (pySplit text)).flatten = pySplit text) ∧
    (smart_text_wrap true wordW spaceW text fs maxW =
      (wrapCore (pixelFits wordW spaceW maxW) (pySplit text)).map
        (String.intercalate " ")) ∧
    (2 < (pySplit text).length →
      smart_text_wrap false wordW spaceW text fs maxW =
        (wrapCore (charFits fs maxW) (pySplit text)).map
          (String.intercalate " ")) ∧
    (pixelFits wordW spaceW maxW [w] = false →
      ∀ l ∈ wrapCore (pixelFits wordW spaceW maxW) (pySplit text),
        w ∈ l → l = [w]) ∧
    (charFits fs maxW [w] = false →
      ∀ l ∈ wrapCore (charFits fs maxW) (pySplit text),
        w ∈ l → l = [w]) := by
  refine ⟨wrapCore_flatten _ _, wrapCore_flatten _ _, ?_, ?_, ?_, ?_⟩
  · rw [smart_text_wrap, if_pos rfl]
  · intro hlen
    rw [smart_text_wrap, if_neg (by simp), if_neg (by omega)]
  · intro hw
    exact wrapCore_overflow_alone _ _ w
      (pixelFits_mono wordW spaceW maxW hW hsp w) hw
  · intro hw
    exact wrapCore_overflow_alone _ _ w (charFits_mono fs maxW w) hw

/-- C3 witness: word-length metric, space width 1, maximum width 5; the
three-word text wraps without splitting and the eight-character word is
wider than the maximum, so it can only ever stand alone. -/
theorem c3_word_integrity_amended_witness :
    (∀ s : String, 0 ≤ (fun t : String => (t.length : ℚ)) s) ∧
    (0 : ℚ) ≤ 1 ∧
    ((wrapCore (pixelFits (fun t : String => (t.length : ℚ)) 1 5)
        (pySplit "aa bb cc")).flatten = pySplit "aa bb cc") ∧
    pixelFits (fun t : String => (t.length : ℚ)) 1 5 ["aaaaaaaa"] = false ∧
    (∀ l ∈ wrapCore (pixelFits (fun t : String => (t.length : ℚ)) 1 5)
        (pySplit "aa bb cc"), "aaaaaaaa" ∈ l → l = ["aaaaaaaa"]) := by
  have hW : ∀ s : String, 0 ≤ (fun t : String => (t.length : ℚ)) s :=
    fun s => Nat.cast_nonneg s.length
  have hf : pixelFits (fun t : String => (t.length : ℚ)) 1 5 ["aaaaaaaa"]
      = false := by
    have h8 : ("aaaaaaaa" : String).length = 8 := by decide
    simp only [pixelFits, lineWidth, List.map_cons, List.map_nil,
      List.sum_cons, List.sum_nil, List.length_cons, List.length_nil, h8]
    norm_num
  refine ⟨hW, by norm_num, ?_, hf, ?_⟩
  · exact (c3_word_integrity_amended (fun t : String => (t.length : ℚ)) 1 5
      64 "aa bb cc" "aaaaaaaa" hW (by norm_num)).1
  · exact (c3_word_integrity_amended (fun t : String => (t.length : ℚ)) 1 5
      64 "aa bb cc" "aaaaaaaa" hW (by norm_num)).2.2.2.2.1 hf

lemma fitAux_spec (lineW lineH wordW : ℕ → String → ℚ) (spaceW : ℕ → ℚ)
    (text : String) (maxW maxH : ℚ) :
    ∀ (fuel fs : ℕ) (wrapped : List String), 32 ≤ fs → 4 ∣ fs - 32 →
      fs - 32 ≤ 4 * fuel →
      32 ≤ (fitAux lineW lineH wordW spaceW text maxW maxH
              fuel fs wrapped).2 ∧
      (fitAux lineW lineH wordW spaceW text maxW maxH fuel fs wrapped).2
        ≤ fs ∧
      4 ∣ fs - (fitAux lineW lineH wordW spaceW text maxW maxH
              fuel fs wrapped).2 ∧
      ((fitAux lineW lineH wordW spaceW text maxW maxH
          fuel fs wrapped).2 = 32 ∨
        (blockHeight
            (lineH (fitAux lineW lineH wordW spaceW text maxW maxH
              fuel fs wrapped).2)
            (fitAux lineW lineH wordW spaceW text maxW maxH
              fuel fs wrapped).1 ≤ maxH ∧
         blockMaxWidth
            (lineW (fitAux lineW lineH wordW spaceW text maxW maxH
              fuel fs wrapped).2)
            (fitAux lineW lineH wordW spaceW text maxW maxH
              fuel fs wrapped).1 ≤ maxW)) := by
  intro fuel
  induction fuel with
  | zero =>
    intro fs wrapped h32 hdvd hle
    have hfs : fs = 32 := by omega
    subst hfs
    simp [fitAux]
  | succ fuel ih =>
    intro fs wrapped h32 hdvd hle
    simp only [fitAux]
    split_ifs with hcond
    · have h32x : 32 ≤ fs - 4 := by
        obtain ⟨hov, hgt⟩ := hcond
        omega
      have hdvdx : 4 ∣ (fs - 4) - 32 := by omega
      have hlex : (fs - 4) - 32 ≤ 4 * fuel := by omega
      obtain ⟨a, b, c, d⟩ := ih (fs - 4)
        (smart_text_wrap true (wordW (fs - 4)) (spaceW (fs - 4)) text
          (fs - 4) maxW) h32x hdvdx hlex
      exact ⟨a, by omega, by omega, d⟩
    · refine ⟨h32, le_refl fs, by omega, ?_⟩
      rcases not_and_or.mp hcond with hov | hfs
      · push_neg at hov
        exact Or.inr ⟨hov.1, hov.2⟩
      · left
        omega

/-- C4: the caption font-size search always terminates within its budget:
from the starting size 64 it only ever lowers the size in steps of 4, runs
at most 8 of its up to 10 permitted iterations, returns a size between the
32 minimum and the 64 start in every branch (including the exception
branch taken when the font cannot load), and whenever the search path runs
it either returns a block meeting both the 480 height and 820 width bounds
or accepts the minimum size 32 instead of failing. -/
theorem c4_font_search_bounds (fontOk : Bool)
    (lineW lineH wordW : ℕ → String → ℚ) (spaceW : ℕ → ℚ) (text : String) :
    32 ≤ (create_text_with_effects fontOk lineW lineH wordW spaceW text).2 ∧
    (create_text_with_effects fontOk lineW lineH wordW spaceW text).2
      ≤ 64 ∧
    (∃ k, k ≤ 8 ∧
      (create_text_with_effects fontOk lineW lineH wordW spaceW text).2 =
        64 - 4 * k) ∧
    (fontOk = true →
      ((create_text_with_effects fontOk lineW lineH wordW spaceW
          text).2 = 32 ∨
        (blockHeight
            (lineH (create_text_with_effects fontOk lineW lineH wordW
              spaceW text).2)
            (create_text_with_effects fontOk lineW lineH wordW spaceW
              text).1 ≤ 480 ∧
         blockMaxWidth
            (lineW (create_text_with_effects fontOk lineW lineH wordW
              spaceW text).2)
            (create_text_with_effects fontOk lineW lineH wordW spaceW
              text).1 ≤ 820))) := by
  cases fontOk with
  | true =>
    simp only [create_text_with_effects, if_pos]
    obtain ⟨a, b, c, d⟩ := fitAux_spec lineW lineH wordW spaceW text 820 480
      10 64 (smart_text_wrap true (wordW 64) (spaceW 64) text 64 820)
      (by omega) (by omega) (by omega)
    refine ⟨a, b, ?_, fun _ => d⟩
    obtain ⟨k, hk⟩ := c
    exact ⟨k, by omega, by omega⟩
  | false =>
    simp only [create_text_with_effects, Bool.false_eq_true, if_false]
    split_ifs with hlen
    · exact ⟨by omega, by omega, ⟨2, by omega, by omega⟩,
        fun h => by simp at h⟩
    · exact ⟨by omega, by omega, ⟨0, by omega, by omega⟩,
        fun h => by simp at h⟩

/-- C4 witness: the search path at a concrete metric and text. -/
theorem c4_font_search_bounds_witness :
    32 ≤ (create_text_with_effects true (fun _ _ => 0) (fun _ _ => 0)
        (fun _ _ => 0) (fun _ => 0) "hi").2 ∧
    (create_text_with_effects true (fun _ _ => 0) (fun _ _ => 0)
        (fun _ _ => 0) (fun _ => 0) "hi").2 ≤ 64 ∧
    (∃ k, k ≤ 8 ∧
      (create_text_with_effects true (fun _ _ => 0) (fun _ _ => 0)
          (fun _ _ => 0) (fun _ => 0) "hi").2 = 64 - 4 * k) ∧
    ((create_text_with_effects true (fun _ _ => 0) (fun _ _ => 0)
        (fun _ _ => 0) (fun _ => 0) "hi").2 = 32 ∨
      (blockHeight
          ((fun _ _ => (0 : ℚ))
            (create_text_with_effects true (fun _ _ => 0) (fun _ _ => 0)
              (fun _ _ => 0) (fun _ => 0) "hi").2)
          (create_text_with_effects true (fun _ _ => 0) (fun _ _ => 0)
            (fun _ _ => 0) (fun _ => 0) "hi").1 ≤ 480 ∧
       blockMaxWidth
          ((fun _ _ => (0 : ℚ))
            (create_text_with_effects true (fun _ _ => 0) (fun _ _ => 0)
              (fun _ _ => 0) (fun _ => 0) "hi").2)
          (create_text_with_effects true (fun _ _ => 0) (fun _ _ => 0)
            (fun _ _ => 0) (fun _ => 0) "hi").1 ≤ 820)) :=
  ⟨(c4_font_search_bounds true (fun _ _ => 0) (fun _ _ => 0) (fun _ _ => 0)
      (fun _ => 0) "hi").1,
   (c4_font_search_bounds true (fun _ _ => 0) (fun _ _ => 0) (fun _ _ => 0)
      (fun _ => 0) "hi").2.1,
   (c4_font_search_bounds true (fun _ _ => 0) (fun _ _ => 0) (fun _ _ => 0)
      (fun _ => 0) "hi").2.2.1,
   (c4_font_search_bounds true (fun _ _ => 0) (fun _ _ => 0) (fun _ _ => 0)
      (fun _ => 0) "hi").2.2.2 rfl⟩

/-- C5 counterexample: a caption block 1500 pixels tall anchored center at
font size 32 ends at vertical position 210, the top limit, but its bottom
edge 1710 then lies below the bottom limit 1575, so the clamped placement
does cross the bottom safe-zone limit. -/
theorem c5_clamp_counterexample :
    topLimit ≤ computePosY 32 1500 VPos.center ∧
    bottomLimit 32 < computePosY 32 1500 VPos.center + 1500 := by
  constructor <;> decide

/-- C5 (amended): for every text height, font size and anchor policy the
clamped position respects the top limit, and it also respects the bottom
limit whenever the text height fits inside the safe region between the two
limits; when the block is taller than that region the second clamp lets
the top limit win and the block overruns the bottom limit. -/
theorem c5_clamp_amended (fs : ℕ) (th : ℤ) (p : VPos) :
    topLimit ≤ computePosY fs th p ∧
    (th ≤ bottomLimit fs - topLimit →
      computePosY fs th p + th ≤ bottomLimit fs) := by
  cases p with
  | center =>
    simp only [computePosY, topLimit, bottomLimit, bottomSafeZone,
      descenderPadding]
    generalize (1920 - th).fdiv 2 = b
    constructor
    · split_ifs <;> omega
    · intro h
      split_ifs <;> omega
  | top =>
    simp only [computePosY, topLimit, bottomLimit, bottomSafeZone,
      descenderPadding]
    constructor
    · split_ifs <;> omega
    · intro h
      split_ifs <;> omega
  | bottom =>
    simp only [computePosY, topLimit, bottomLimit, bottomSafeZone,
      descenderPadding]
    constructor
    · split_ifs <;> omega
    · intro h
      split_ifs <;> omega
  | pix y =>
    simp only [computePosY, topLimit, bottomLimit, bottomSafeZone,
      descenderPadding]
    constructor
    · split_ifs <;> omega
    · intro h
      split_ifs <;> omega

/-- C5 witness: a 100 pixel block at font size 64 fits between the limits
and the clamp keeps it inside both. -/
theorem c5_clamp_amended_witness :
    (100 : ℤ) ≤ bottomLimit 64 - topLimit ∧
    topLimit ≤ computePosY 64 100 VPos.center ∧
    computePosY 64 100 VPos.center + 100 ≤ bottomLimit 64 :=
  ⟨by decide, (c5_clamp_amended 64 100 VPos.center).1,
   (c5_clamp_amended 64 100 VPos.center).2 (by decide)⟩

/-- C6: scene creation never lacks a background: whatever the caption
text, anchor and metric, the first emitted layer is the image clip when
the path exists, and otherwise a solid-color clip with exactly the same
duration and start offset, so the timeline length is unchanged by image
failure; the scene layer list is never empty, and the upstream validation
loop returns one path per scene, each either passing the validity test or
being a freshly written gradient fallback. -/
theorem c6_background_always (fontOk : Bool)
    (lineW lineH wordW : ℕ → String → ℚ) (spaceW : ℕ → ℚ)
    (textH : List String → ℕ → ℤ) (text : String) (dur start : ℚ)
    (p : VPos) (cf : Option (ℕ × ℕ × ℕ)) (ok : String → Bool)
    (imgs : List (Option String)) :
    (∀ ip, (create_scene fontOk lineW lineH wordW spaceW textH true
        (some ip) text dur start p cf).head? =
      some (Layer.image ip dur start)) ∧
    (∀ ip, (create_scene fontOk lineW lineH wordW spaceW textH false
        (some ip) text dur start p cf).head? =
      some (Layer.color (cf.getD (45, 80, 22)) dur start)) ∧
    (∀ iok, (create_scene fontOk lineW lineH wordW spaceW textH iok none
        text dur start p cf).head? =
      some (Layer.color (cf.getD (45, 80, 22)) dur start)) ∧
    (∀ iok ipath, create_scene fontOk lineW lineH wordW spaceW textH iok
        ipath text dur start p cf ≠ []) ∧
    (validateSceneImages ok imgs).length = imgs.length ∧
    (∀ s ∈ validateSceneImages ok imgs,
      ok s = true ∨ ∃ i, s = fallbackImage i) := by
  refine ⟨?_, ?_, ?_, ?_, ?_, ?_⟩
  · intro ip
    simp only [create_scene]
    split_ifs <;> simp_all
  · intro ip
    simp only [create_scene]
    split_ifs <;> simp_all
  · intro iok
    simp only [create_scene]
    split_ifs <;> simp_all
  · intro iok ipath
    cases ipath <;> simp only [create_scene] <;> split_ifs <;> simp
  · simp [validateSceneImages]
  · intro s hs
    simp only [validateSceneImages, List.mem_map] at hs
    obtain ⟨⟨i, img⟩, hmem, heq⟩ := hs
    cases img with
    | none =>
      right
      exact ⟨i, heq.symm⟩
    | some q =>
      simp only at heq
      by_cases hq : ok q = true
      · rw [if_pos hq] at heq
        left
        rw [← heq]
        exact hq
      · rw [if_neg hq] at heq
        right
        exact ⟨i, heq.symm⟩
